import Mathlib

/-!
Formal model of the hardware-sequencing layer of the beaglebone-monitor
repository: the IC74HC595 cascaded shift-register driver, the IC74HC4067
multiplexer driver, and the heartbeat scan cycle of the InputBoard, IOBoard
and OutputBoard probes.  Each definition is a direct translation of the
corresponding JavaScript function; JavaScript numbers reaching bitwise
operators are modelled by their 32-bit patterns (naturals taken modulo 2^32),
and JavaScript arrays by lists where a write past the end extends the array
(holes read back as 0, matching how the bitwise operators coerce undefined).
-/

/-- The 32-bit pattern of the JavaScript bitwise OR applied to two
nonnegative numbers (ToInt32 coerces each operand modulo 2^32). -/
def jsOr (x y : Nat) : Nat := (x % 2 ^ 32) ||| (y % 2 ^ 32)

/-- The 32-bit pattern of the JavaScript expression x AND NOT y for
nonnegative x and y: the complement of the 32-bit pattern of y is its XOR
with the all-ones pattern. -/
def jsAndNot (x y : Nat) : Nat := (x % 2 ^ 32) &&& ((2 ^ 32 - 1) ^^^ (y % 2 ^ 32))

/-- A JavaScript array element write.  Writing inside the current length
replaces the element; writing at or past the length extends the array, any
skipped slots being holes that later bitwise reads coerce to 0. -/
def listWriteExtend (values : List Nat) (i : Nat) (v : Nat) : List Nat :=
  if i < values.length then values.set i v
  else values ++ List.replicate (i - values.length) 0 ++ [v]

namespace IC74HC595

/-- IC74HC595.prototype.set: chipNum is pin / 8, the mask is 2 to the power
pin % 8, and the chip byte has that bit set (value truthy) or cleared
(value falsy).  The source performs no range check on pin. -/
def set (values : List Nat) (pin : Nat) (value : Nat) : List Nat :=
  let chipNum := pin / 8
  let chipValue := values.getD chipNum 0
  let localPin := pin % 8
  let mask := 2 ^ localPin
  let newValue := if value ≠ 0 then jsOr chipValue mask else jsAndNot chipValue mask
  listWriteExtend values chipNum newValue

/-- IC74HC595.prototype.get: reads the chip byte at pin / 8 and returns
HIGH (1) when the masked bit is nonzero, LOW (0) otherwise. -/
def get (values : List Nat) (pin : Nat) : Nat :=
  let chipNum := pin / 8
  let chipValue := values.getD chipNum 0
  let mask := 2 ^ (pin % 8)
  if (chipValue % 2 ^ 32) &&& mask ≠ 0 then 1 else 0

/-- One observable bus event of a shiftOut transaction: a byte handed to
b.shiftOut for a given chip (the flag records that the call passes
b.MSBFIRST, so the byte is clocked most-significant-bit first), or a
digitalWrite of the given level to the latch line. -/
inductive BusEvent where
  | shiftByte (chip : Nat) (value : Nat) (msbFirst : Bool)
  | latch (level : Nat)
deriving Repr, DecidableEq

/-- The recursive shift helper inside IC74HC595.prototype.shiftOut on its
success path: it emits the byte of the given chip, recurses on the next
lower chip while one remains, and after chip 0 runs the private latch
helper, which writes the latch line HIGH then LOW. -/
def shiftFrom (values : List Nat) : Nat → List BusEvent
  | 0 => [.shiftByte 0 (values.getD 0 0) true, .latch 1, .latch 0]
  | n + 1 => .shiftByte (n + 1) (values.getD (n + 1) 0) true :: shiftFrom values n

/-- IC74HC595.prototype.shiftOut starts the shift at the last chip of the
values array. -/
def shiftOutTrace (values : List Nat) : List BusEvent :=
  shiftFrom values (values.length - 1)

/-- Chip indices of the shift events of a bus trace, in emission order. -/
def shiftChips (trace : List BusEvent) : List Nat :=
  trace.filterMap fun e =>
    match e with
    | .shiftByte c _ _ => some c
    | .latch _ => none

end IC74HC595

section ListHelpers

theorem getD_set_ne (l : List Nat) (i j a d : Nat) (h : i ≠ j) :
    (l.set i a).getD j d = l.getD j d := by
  induction l generalizing i j with
  | nil => simp
  | cons x xs ih =>
    cases i with
    | zero =>
      cases j with
      | zero => omega
      | succ j => simp
    | succ i =>
      cases j with
      | zero => simp
      | succ j => simpa using ih i j (by omega)

theorem getD_set_self (l : List Nat) (i a d : Nat) (h : i < l.length) :
    (l.set i a).getD i d = a := by
  induction l generalizing i with
  | nil => simp at h
  | cons x xs ih =>
    cases i with
    | zero => simp
    | succ i => simpa using ih i (by simpa using h)

theorem getD_append_left (l l' : List Nat) (i d : Nat) (h : i < l.length) :
    (l ++ l').getD i d = l.getD i d := by
  induction l generalizing i with
  | nil => simp at h
  | cons x xs ih =>
    cases i with
    | zero => simp
    | succ i => simpa using ih i (by simpa using h)

theorem getD_append_right (l l' : List Nat) (i d : Nat) (h : l.length ≤ i) :
    (l ++ l').getD i d = l'.getD (i - l.length) d := by
  induction l generalizing i with
  | nil => simp
  | cons x xs ih =>
    cases i with
    | zero => simp at h
    | succ i => simpa using ih i (by simpa using h)

end ListHelpers

namespace IC74HC595

theorem length_listWriteExtend_lt (values : List Nat) (i v : Nat)
    (h : i < values.length) : (listWriteExtend values i v).length = values.length := by
  simp [listWriteExtend, h]

theorem length_set_lt (values : List Nat) (pin v : Nat)
    (h : pin < 8 * values.length) : (set values pin v).length = values.length := by
  have hc : pin / 8 < values.length := by omega
  simp only [set]
  exact length_listWriteExtend_lt _ _ _ hc

/-- The byte stored for a chip strictly below the length is the written
byte when the chip matches, and is untouched otherwise. -/
theorem getD_set_chip (values : List Nat) (pin v c : Nat)
    (hpin : pin / 8 < values.length) (hc : c ≠ pin / 8) :
    (set values pin v).getD c 0 = values.getD c 0 := by
  simp only [set, listWriteExtend, if_pos hpin]
  exact getD_set_ne _ _ _ _ _ (fun h => hc h.symm)

theorem testBit_get (values : List Nat) (pin : Nat) :
    get values pin = if (values.getD (pin / 8) 0).testBit (pin % 8) then 1 else 0 := by
  have h8 : pin % 8 < 32 := by omega
  have h2 : (0 : Nat) < 2 ^ (pin % 8) := Nat.pos_pow_of_pos _ (by norm_num)
  simp only [get, Nat.and_two_pow, Nat.testBit_mod_two_pow]
  rcases hb : (values.getD (pin / 8) 0).testBit (pin % 8) with _ | _
  · simp [hb, h8]
  · simp [hb, h8, h2.ne']

theorem testBit_jsOr_pow (x i j : Nat) (hi : i < 32) (hj : j < 32) :
    (jsOr x (2 ^ i)).testBit j = (x.testBit j || decide (i = j)) := by
  have hpow : 2 ^ i % 2 ^ 32 = 2 ^ i :=
    Nat.mod_eq_of_lt (Nat.pow_lt_pow_right (by norm_num) hi)
  rw [jsOr, hpow, Nat.testBit_lor, Nat.testBit_mod_two_pow]
  rcases eq_or_ne i j with h | h
  · subst h
    simp [Nat.testBit_two_pow_self, hj]
  · simp [Nat.testBit_two_pow_of_ne h, h, hj]

theorem testBit_jsAndNot_pow (x i j : Nat) (hi : i < 32) (hj : j < 32) :
    (jsAndNot x (2 ^ i)).testBit j = (x.testBit j && !decide (i = j)) := by
  have hpow : 2 ^ i % 2 ^ 32 = 2 ^ i :=
    Nat.mod_eq_of_lt (Nat.pow_lt_pow_right (by norm_num) hi)
  rw [jsAndNot, hpow, Nat.testBit_land, Nat.testBit_xor, Nat.testBit_mod_two_pow,
    Nat.testBit_two_pow_sub_one]
  rcases eq_or_ne i j with h | h
  · subst h
    simp [Nat.testBit_two_pow_self, hj]
  · simp [Nat.testBit_two_pow_of_ne h, h, hj]

/-- The byte written by set at the addressed chip, when that chip is inside
the array. -/
theorem getD_set_chip_self (values : List Nat) (pin v : Nat)
    (hpin : pin / 8 < values.length) :
    (set values pin v).getD (pin / 8) 0 =
      if v ≠ 0 then jsOr (values.getD (pin / 8) 0) (2 ^ (pin % 8))
      else jsAndNot (values.getD (pin / 8) 0) (2 ^ (pin % 8)) := by
  rcases eq_or_ne v 0 with h | h <;>
    simp [set, listWriteExtend, hpin, h, getD_set_self _ _ _ _ hpin]

/-- Reading back the pin just written by set, when the addressed chip is
inside the array, yields the truthiness of the written value. -/
theorem get_set_same (values : List Nat) (pin v : Nat)
    (hchip : pin / 8 < values.length) :
    get (set values pin v) pin = if v ≠ 0 then 1 else 0 := by
  have hb8 : pin % 8 < 32 := by omega
  rw [testBit_get, getD_set_chip_self _ _ _ hchip]
  rcases eq_or_ne v 0 with h | h <;>
    simp [h, testBit_jsAndNot_pow _ _ _ hb8 hb8, testBit_jsOr_pow _ _ _ hb8 hb8]

/-- A set whose addressed chip is inside the array leaves every other pin
unchanged. -/
theorem get_set_other (values : List Nat) (pin v pin' : Nat)
    (hchip : pin / 8 < values.length) (hne : pin' ≠ pin) :
    get (set values pin v) pin' = get values pin' := by
  have hb8 : pin % 8 < 32 := by omega
  have hb'8 : pin' % 8 < 32 := by omega
  rw [testBit_get, testBit_get]
  rcases eq_or_ne (pin' / 8) (pin / 8) with hsame | hdiff
  · have hbits : pin % 8 ≠ pin' % 8 := by omega
    rw [hsame, getD_set_chip_self _ _ _ hchip]
    rcases eq_or_ne v 0 with h | h
    · simp [h, testBit_jsAndNot_pow _ _ _ hb8 hb'8, hbits]
    · simp [h, testBit_jsOr_pow _ _ _ hb8 hb'8, hbits]
  · rw [getD_set_chip _ _ _ _ hchip hdiff]

end IC74HC595

/-- C2: for every chain and in-range bit index, set followed by get returns
the written value, and every other in-range bit is unchanged by the set. -/
theorem ic595_set_get (values : List Nat) (c b v : Nat)
    (hc : values.length = c) (hb : b < c * 8) (hv : v = 0 ∨ v = 1) :
    IC74HC595.get (IC74HC595.set values b v) b = v ∧
    ∀ b', b' < c * 8 → b' ≠ b →
      IC74HC595.get (IC74HC595.set values b v) b' = IC74HC595.get values b' := by
  have hchip : b / 8 < values.length := by omega
  constructor
  · rw [IC74HC595.get_set_same _ _ _ hchip]
    rcases hv with h | h <;> simp [h]
  · intro b' hb' hne
    exact IC74HC595.get_set_other _ _ _ _ hchip hne

/-- Witness for C2 at a concrete two-chip chain: setting bit 3 makes get
return 1 there and leaves bit 5 as it was. -/
theorem ic595_set_get_witness :
    IC74HC595.get (IC74HC595.set [0, 255] 3 1) 3 = 1 ∧
    IC74HC595.get (IC74HC595.set [0, 255] 3 1) 5 = IC74HC595.get [0, 255] 5 :=
  ⟨(ic595_set_get [0, 255] 2 3 1 rfl (by decide) (Or.inr rfl)).1,
   (ic595_set_get [0, 255] 2 3 1 rfl (by decide) (Or.inr rfl)).2 5 (by decide) (by decide)⟩

/-- C6 counterexample: setting bit 8 on a one-chip chain is applied, not
rejected; the values array grows to length 2 and get returns the bit. -/
theorem ic595_set_no_range_check :
    IC74HC595.set [0] 8 1 = [0, 1] ∧
    (IC74HC595.set [0] 8 1).length = 2 ∧
    IC74HC595.get (IC74HC595.set [0] 8 1) 8 = 1 := by
  decide

/-- C6 amended: set performs no bounds check.  For a bit index at or past
the end of the chain it writes the addressed chip anyway, extending the
values array to chip index plus one (holes read as 0), and get then returns
the written bit. -/
theorem ic595_set_out_of_range (values : List Nat) (b v : Nat)
    (hb : values.length * 8 ≤ b) :
    (IC74HC595.set values b v).length = b / 8 + 1 ∧
    IC74HC595.get (IC74HC595.set values b v) b = if v ≠ 0 then 1 else 0 := by
  have hchip : values.length ≤ b / 8 := by omega
  have hnotlt : ¬ b / 8 < values.length := by omega
  have hb8 : b % 8 < 32 := by omega
  have hold : values.getD (b / 8) 0 = 0 := List.getD_eq_default _ _ hchip
  simp only [List.getD, List.get?_eq_getElem?] at hold
  have hset : IC74HC595.set values b v =
      values ++ List.replicate (b / 8 - values.length) 0 ++
        [if v ≠ 0 then jsOr 0 (2 ^ (b % 8)) else jsAndNot 0 (2 ^ (b % 8))] := by
    rcases eq_or_ne v 0 with h | h <;>
      simp [IC74HC595.set, listWriteExtend, hnotlt, hold, h]
  constructor
  · rw [hset]
    simp
    omega
  · have hgetD : (IC74HC595.set values b v).getD (b / 8) 0 =
        if v ≠ 0 then jsOr 0 (2 ^ (b % 8)) else jsAndNot 0 (2 ^ (b % 8)) := by
      rw [hset, List.append_assoc,
        getD_append_right _ _ _ _ hchip,
        getD_append_right _ _ _ _ (by simp)]
      simp
    rw [IC74HC595.testBit_get, hgetD]
    rcases eq_or_ne v 0 with h | h
    · simp [h, IC74HC595.testBit_jsAndNot_pow _ _ _ hb8 hb8]
    · simp [h, IC74HC595.testBit_jsOr_pow _ _ _ hb8 hb8]

/-- Witness for the amended C6 statement on a concrete one-chip chain. -/
theorem ic595_set_out_of_range_witness :
    (IC74HC595.set [7] 9 1).length = 9 / 8 + 1 ∧
    IC74HC595.get (IC74HC595.set [7] 9 1) 9 = if (1 : Nat) ≠ 0 then 1 else 0 :=
  ic595_set_out_of_range [7] 9 1 (by decide)

theorem shiftChips_map_shiftByte (l : List Nat) (g : Nat → Nat) :
    IC74HC595.shiftChips
      ((l.map fun c => IC74HC595.BusEvent.shiftByte c (g c) true) ++
        [IC74HC595.BusEvent.latch 1, IC74HC595.BusEvent.latch 0]) = l := by
  induction l with
  | nil => simp [IC74HC595.shiftChips]
  | cons x xs ih => simpa [IC74HC595.shiftChips, List.filterMap_cons] using ih

theorem shiftFrom_eq (values : List Nat) (k : Nat) :
    IC74HC595.shiftFrom values k =
      ((List.range (k + 1)).reverse.map fun c =>
        IC74HC595.BusEvent.shiftByte c (values.getD c 0) true)
      ++ [IC74HC595.BusEvent.latch 1, IC74HC595.BusEvent.latch 0] := by
  induction k with
  | zero => simp [IC74HC595.shiftFrom, List.range_succ]
  | succ k ih =>
    rw [IC74HC595.shiftFrom, ih]
    simp [List.range_succ]

/-- C1: on its success path shiftOut emits exactly one byte per chip,
starting at the highest chip index and ending at index 0, each handed to the
bus most-significant-bit first, followed by the latch pulse HIGH then LOW;
the visited chip indices are strictly decreasing. -/
theorem ic595_shiftOut_order (values : List Nat) (h : 1 ≤ values.length) :
    IC74HC595.shiftOutTrace values =
      ((List.range values.length).reverse.map fun c =>
        IC74HC595.BusEvent.shiftByte c (values.getD c 0) true)
      ++ [IC74HC595.BusEvent.latch 1, IC74HC595.BusEvent.latch 0] ∧
    List.Pairwise (fun a b => b < a)
      (IC74HC595.shiftChips (IC74HC595.shiftOutTrace values)) := by
  have hlen : values.length - 1 + 1 = values.length := by omega
  have htrace := shiftFrom_eq values (values.length - 1)
  rw [hlen] at htrace
  have hmain : IC74HC595.shiftOutTrace values =
      ((List.range values.length).reverse.map fun c =>
        IC74HC595.BusEvent.shiftByte c (values.getD c 0) true)
      ++ [IC74HC595.BusEvent.latch 1, IC74HC595.BusEvent.latch 0] := by
    rw [IC74HC595.shiftOutTrace]
    exact htrace
  refine ⟨hmain, ?_⟩
  rw [hmain, shiftChips_map_shiftByte]
  exact (List.pairwise_reverse).mpr (by simpa using List.pairwise_lt_range _)

/-- Witness for C1 on a concrete two-chip chain. -/
theorem ic595_shiftOut_order_witness :
    IC74HC595.shiftOutTrace [5, 9] =
      ((List.range ([5, 9] : List Nat).length).reverse.map fun c =>
        IC74HC595.BusEvent.shiftByte c (([5, 9] : List Nat).getD c 0) true)
      ++ [IC74HC595.BusEvent.latch 1, IC74HC595.BusEvent.latch 0] ∧
    List.Pairwise (fun a b => b < a)
      (IC74HC595.shiftChips (IC74HC595.shiftOutTrace [5, 9])) :=
  ic595_shiftOut_order [5, 9] (by decide)

namespace IC74HC4067

/-- IC74HC4067.prototype.switch: the precondition rejects a requested
position with a RANGE error when it is negative, above 3 with no data2 pin
configured, above 7 with no data3 pin configured, or above 15; otherwise
the select lines are written and the stored position becomes the request.
The two Booleans record whether the optional data2 and data3 pins are
configured (the constructor defaults them to the empty, falsy string). -/
def switchTo (hasData2 hasData3 : Bool) (position : Int) : Except String Int :=
  if position < 0 ∨ (hasData2 = false ∧ 3 < position) ∨
      (hasData3 = false ∧ 7 < position) ∨ 15 < position then
    .error "RANGE"
  else
    .ok position

end IC74HC4067

/-- C5: switch succeeds exactly on positions 0..3 with two select lines,
0..7 with three, 0..15 with four, and every position outside the configured
range, negative positions included, fails with the RANGE error. -/
theorem ic4067_switch_range (p : Int) :
    (IC74HC4067.switchTo false false p = .ok p ↔ 0 ≤ p ∧ p ≤ 3) ∧
    (IC74HC4067.switchTo true false p = .ok p ↔ 0 ≤ p ∧ p ≤ 7) ∧
    (IC74HC4067.switchTo true true p = .ok p ↔ 0 ≤ p ∧ p ≤ 15) ∧
    (¬(0 ≤ p ∧ p ≤ 3) → IC74HC4067.switchTo false false p = .error "RANGE") ∧
    (¬(0 ≤ p ∧ p ≤ 7) → IC74HC4067.switchTo true false p = .error "RANGE") ∧
    (¬(0 ≤ p ∧ p ≤ 15) → IC74HC4067.switchTo true true p = .error "RANGE") := by
  refine ⟨?_, ?_, ?_, ?_, ?_, ?_⟩ <;>
  · simp only [IC74HC4067.switchTo]
    split_ifs with h <;> simp_all <;> omega

/-- Witness for C5: a 2-line configuration rejects position 4 and accepts
position 3; a 4-line configuration accepts position 15. -/
theorem ic4067_switch_range_witness :
    IC74HC4067.switchTo false false 4 = .error "RANGE" ∧
    IC74HC4067.switchTo false false 3 = .ok 3 ∧
    IC74HC4067.switchTo true true 15 = .ok 15 :=
  ⟨(ic4067_switch_range 4).2.2.2.1 (by decide),
   (ic4067_switch_range 3).1.mpr (by decide),
   (ic4067_switch_range 15).2.2.1.mpr (by decide)⟩

/-- One rotation of the scan position, shared verbatim by the rotateInput
closures of InputBoard.nextHeartbeat and IOBoard.nextHeartbeat: the position
is pre-incremented and wraps back to zero when it reaches the number of
configured inputs. -/
def rotate (numInputs position : Nat) : Nat :=
  if position + 1 = numInputs then 0 else position + 1

/-- Scan-cycle state of the InputBoard probe: the probe instance fields the
heartbeat reads or writes.  The pending timer is modelled by a flag, the
probe attribute store by one rational per input (attributes start at 0), and
each configured precision by an optional count of decimal digits (none when
the input leaves it undefined, which the source defaults to 3). -/
structure InputBoardState where
  numInputs : Nat
  currentInput : Nat
  timerSet : Bool
  cyanide : Bool
  precisions : List (Option Nat)
  published : List ℚ
deriving Repr, DecidableEq

namespace InputBoard

/-- InputBoard.release: cancel a pending timer if one exists, otherwise set
the cyanide flag so the in-flight heartbeat stops the heart when it ends. -/
def release (s : InputBoardState) : InputBoardState :=
  if s.timerSet then { s with timerSet := false } else { s with cyanide := true }

/-- Entry of InputBoard.nextHeartbeat.  When the current position is not 0 a
heartbeat is already in flight: the call logs the BUG (the returned flag)
and returns without touching any state.  Otherwise a pending timer is
cleared and the heartbeat proceeds. -/
def nextHeartbeatEntry (s : InputBoardState) : InputBoardState × Bool :=
  if s.currentInput ≠ 0 then (s, true)
  else ({ s with timerSet := false }, false)

/-- The rotateInput closure of InputBoard.nextHeartbeat on the success path
of the multiplexer switch: advance the position; once it has wrapped to 0
the heartbeat is complete and the timer is re-armed unless cyanide was set;
otherwise the heartbeat goes on to read the new position. -/
def rotateStep (s : InputBoardState) : InputBoardState :=
  let pos := rotate s.numInputs s.currentInput
  let s' := { s with currentInput := pos }
  if pos = 0 then
    if s'.cyanide then s' else { s' with timerSet := true }
  else s'

/-- JavaScript toFixed(precision) followed by unary plus, on exact rational
values: the value scaled by 10 to the precision, rounded to the nearest
integer picking the larger on ties, and scaled back. -/
def roundTo (precision : Nat) (v : ℚ) : ℚ :=
  (round (v * 10 ^ precision) : ℚ) / 10 ^ precision

/-- The readInput closure of InputBoard.nextHeartbeat on a successful read
of the raw value: the value is rounded to the precision configured for the
current input (default 3) and stored, which publishes the change, exactly
when it differs from the stored attribute value.  The returned option is
the published value, none when nothing is published. -/
def readStep (s : InputBoardState) (raw : ℚ) : InputBoardState × Option ℚ :=
  let precision := (s.precisions.getD s.currentInput none).getD 3
  let attrValue := roundTo precision raw
  if s.published.getD s.currentInput 0 ≠ attrValue then
    ({ s with published := s.published.set s.currentInput attrValue }, some attrValue)
  else (s, none)

end InputBoard

/-- IOBoard.initialize: the chain drives one controller chip plus one chip
per eight named outputs. -/
def num595chips (numOutputs : Nat) : Nat := 1 + (numOutputs + 7) / 8

/-- Scan-cycle state of the IOBoard probe.  The probe keeps two JavaScript
arrays for the 595 driver: ic595Array with one byte per chip of the full
chain, and first595 holding only the controller byte; rotateInput points the
driver at one of the two before writing the control bits, so both are kept
here by value.  The per-output attribute values (what t.get returns for the
output names) are outputVals, the per-input attribute values inputVals. -/
structure IOBoardState where
  numInputs : Nat
  numOutputs : Nat
  currentInput : Nat
  currentOutputLatch : Nat
  outputQueued : Bool
  timerSet : Bool
  cyanide : Bool
  ic595Array : List Nat
  first595 : List Nat
  outputVals : List Nat
  inputVals : List ℚ
  validOutputNames : List String
deriving Repr, DecidableEq

namespace IOBoard

/-- IOBoard.release, identical to InputBoard.release. -/
def release (s : IOBoardState) : IOBoardState :=
  if s.timerSet then { s with timerSet := false } else { s with cyanide := true }

/-- Entry of IOBoard.nextHeartbeat, identical to the InputBoard guard. -/
def nextHeartbeatEntry (s : IOBoardState) : IOBoardState × Bool :=
  if s.currentInput ≠ 0 then (s, true)
  else ({ s with timerSet := false }, false)

/-- IOBoard.queueOutputs: temporarily points the 595 driver at the full
chip array, stages the attribute value of output i at bit i + 8, restores
the driver pointer, and marks outputs queued.  (When a latch is mid-flight
the source schedules a retry but, lacking a return, still stages now.) -/
def queueOutputs (s : IOBoardState) : IOBoardState :=
  { s with
    ic595Array := (List.range s.numOutputs).foldl
      (fun arr i => IC74HC595.set arr (i + 8) (s.outputVals.getD i 0)) s.ic595Array,
    outputQueued := true }

/-- The array the rotateInput closure points the 595 driver at: the full
chain when outputs are queued, otherwise only the controller chip. -/
def rotateTarget (s : IOBoardState) : List Nat :=
  if s.outputQueued then s.ic595Array else s.first595

/-- The controller byte writes of the rotateInput closure: element 0 is
assigned the new input position outright, bit 6 (output enable) is set, and
bit 7 (output latch) is set exactly when queued outputs ride along. -/
def rotateWritten (s : IOBoardState) : List Nat :=
  IC74HC595.set
    (IC74HC595.set
      (listWriteExtend (rotateTarget s) 0 (rotate s.numInputs s.currentInput)) 6 1)
    7 (if s.outputQueued then 1 else 0)

/-- The rotateInput closure of IOBoard.nextHeartbeat on the success path of
shiftOut: advance the position, write the controller byte into the array the
driver currently points at, record the latch state, clear the queue flag,
and when the position is back to 0 with no latch to reset declare the
heartbeat complete, re-arming the timer unless cyanide was set. -/
def rotateStep (s : IOBoardState) : IOBoardState :=
  let pos := rotate s.numInputs s.currentInput
  let s' : IOBoardState :=
    { s with
      currentInput := pos
      currentOutputLatch := if s.outputQueued then 1 else 0
      outputQueued := false
      ic595Array := if s.outputQueued then rotateWritten s else s.ic595Array
      first595 := if s.outputQueued then s.first595 else rotateWritten s }
  if pos = 0 ∧ s'.currentOutputLatch = 0 then
    if s'.cyanide then s' else { s' with timerSet := true }
  else s'

/-- The readInput closure of IOBoard.nextHeartbeat on a successful read:
store the raw value for the current input when it differs. -/
def readStep (s : IOBoardState) (raw : ℚ) : IOBoardState :=
  if s.inputVals.getD s.currentInput 0 ≠ raw then
    { s with inputVals := s.inputVals.set s.currentInput raw }
  else s

end IOBoard

/-- C3: a nextHeartbeat call arriving while the scan position is nonzero is
the re-entrant case; both boards log the defect and return with every state
field exactly as it was. -/
theorem heartbeat_reentrancy_guard :
    (∀ s : InputBoardState, s.currentInput ≠ 0 →
      InputBoard.nextHeartbeatEntry s = (s, true)) ∧
    (∀ s : IOBoardState, s.currentInput ≠ 0 →
      IOBoard.nextHeartbeatEntry s = (s, true)) := by
  constructor <;> intro s h <;>
    simp [InputBoard.nextHeartbeatEntry, IOBoard.nextHeartbeatEntry, h]

/-- A concrete InputBoard state mid-heartbeat, for witnesses. -/
def inputStateMid : InputBoardState :=
  { numInputs := 3, currentInput := 1, timerSet := false, cyanide := false,
    precisions := [some 2, none, some 0], published := [0, 0, 0] }

/-- A concrete IOBoard state mid-heartbeat, for witnesses. -/
def ioStateMid : IOBoardState :=
  { numInputs := 4, numOutputs := 3, currentInput := 2, currentOutputLatch := 0,
    outputQueued := true, timerSet := false, cyanide := false,
    ic595Array := [0, 0], first595 := [0], outputVals := [1, 0, 1],
    inputVals := [0, 0, 0, 0], validOutputNames := ["o0", "o1", "o2"] }

/-- Witness for C3 at concrete mid-heartbeat states of both boards. -/
theorem heartbeat_reentrancy_guard_witness :
    InputBoard.nextHeartbeatEntry inputStateMid = (inputStateMid, true) ∧
    IOBoard.nextHeartbeatEntry ioStateMid = (ioStateMid, true) :=
  ⟨heartbeat_reentrancy_guard.1 inputStateMid (by decide),
   heartbeat_reentrancy_guard.2 ioStateMid (by decide)⟩

theorem rotate_iterate (n k : Nat) (hk : k ≤ n) :
    (rotate n)^[k] 0 = k % n := by
  induction k with
  | zero => simp [Nat.zero_mod]
  | succ k ih =>
    rw [Function.iterate_succ_apply', ih (by omega)]
    have hkn : k % n = k := Nat.mod_eq_of_lt (by omega)
    rw [hkn, rotate]
    split_ifs with h
    · rw [h, Nat.mod_self]
    · rw [Nat.mod_eq_of_lt (by omega)]

/-- C4: the rotation step keeps the position inside the configured range,
brings it back to 0 after exactly the channel count many steps and not
before, and is the exact position action of both boards, while an output
flush (queueOutputs) never moves the position. -/
theorem scan_rotation_cycle (n : Nat) (hn : 1 ≤ n) :
    (∀ p, p < n → rotate n p < n) ∧
    (rotate n)^[n] 0 = 0 ∧
    (∀ k, 0 < k → k < n → (rotate n)^[k] 0 ≠ 0) ∧
    (∀ s : InputBoardState, (InputBoard.rotateStep s).currentInput =
      rotate s.numInputs s.currentInput) ∧
    (∀ s : IOBoardState, (IOBoard.rotateStep s).currentInput =
      rotate s.numInputs s.currentInput) ∧
    (∀ s : IOBoardState, (IOBoard.queueOutputs s).currentInput = s.currentInput) := by
  refine ⟨?_, ?_, ?_, ?_, ?_, ?_⟩
  · intro p hp
    rw [rotate]
    split_ifs with h <;> omega
  · rw [rotate_iterate n n le_rfl, Nat.mod_self]
  · intro k hk0 hkn
    rw [rotate_iterate n k (by omega), Nat.mod_eq_of_lt hkn]
    omega
  · intro s
    simp only [InputBoard.rotateStep]
    split_ifs <;> rfl
  · intro s
    simp only [IOBoard.rotateStep]
    split_ifs <;> rfl
  · intro s
    simp [IOBoard.queueOutputs]

/-- Witness for C4 with three channels. -/
theorem scan_rotation_cycle_witness :
    rotate 3 2 < 3 ∧ (rotate 3)^[3] 0 = 0 ∧ (rotate 3)^[2] 0 ≠ 0 :=
  ⟨(scan_rotation_cycle 3 (by decide)).1 2 (by decide),
   (scan_rotation_cycle 3 (by decide)).2.1,
   (scan_rotation_cycle 3 (by decide)).2.2.1 2 (by decide) (by decide)⟩

/-- C9: release cancels the pending timer when one is set (the idle wait)
and otherwise sets the cyanide flag (a heartbeat is in flight); either way
no timer is pending when release returns, and with cyanide set neither the
rotation steps nor the read steps of either board ever arm the timer, so
the in-flight heartbeat finishes without re-arming. -/
theorem release_never_reschedules :
    (∀ s : InputBoardState, s.timerSet = true →
      InputBoard.release s = { s with timerSet := false }) ∧
    (∀ s : InputBoardState, s.timerSet = false →
      InputBoard.release s = { s with cyanide := true }) ∧
    (∀ s : InputBoardState, (InputBoard.release s).timerSet = false) ∧
    (∀ s : InputBoardState, s.cyanide = true →
      (InputBoard.rotateStep s).timerSet = s.timerSet ∧
      (InputBoard.rotateStep s).cyanide = true) ∧
    (∀ s : InputBoardState, ∀ raw : ℚ,
      (InputBoard.readStep s raw).1.timerSet = s.timerSet ∧
      (InputBoard.readStep s raw).1.cyanide = s.cyanide) ∧
    (∀ s : IOBoardState, s.timerSet = true →
      IOBoard.release s = { s with timerSet := false }) ∧
    (∀ s : IOBoardState, s.timerSet = false →
      IOBoard.release s = { s with cyanide := true }) ∧
    (∀ s : IOBoardState, (IOBoard.release s).timerSet = false) ∧
    (∀ s : IOBoardState, s.cyanide = true →
      (IOBoard.rotateStep s).timerSet = s.timerSet ∧
      (IOBoard.rotateStep s).cyanide = true) ∧
    (∀ s : IOBoardState, ∀ raw : ℚ,
      (IOBoard.readStep s raw).timerSet = s.timerSet ∧
      (IOBoard.readStep s raw).cyanide = s.cyanide) := by
  refine ⟨?_, ?_, ?_, ?_, ?_, ?_, ?_, ?_, ?_, ?_⟩
  · intro s h
    simp [InputBoard.release, h]
  · intro s h
    simp [InputBoard.release, h]
  · intro s
    simp only [InputBoard.release]
    split_ifs with h <;> simp [h]
  · intro s h
    constructor <;> simp [InputBoard.rotateStep, h]
  · intro s raw
    constructor <;> (simp only [InputBoard.readStep]; split <;> rfl)
  · intro s h
    simp [IOBoard.release, h]
  · intro s h
    simp [IOBoard.release, h]
  · intro s
    simp only [IOBoard.release]
    split_ifs with h <;> simp [h]
  · intro s h
    constructor <;> simp [IOBoard.rotateStep, h]
  · intro s raw
    constructor <;> (simp only [IOBoard.readStep]; split <;> rfl)

/-- An InputBoard state waiting idle on its timer, for witnesses. -/
def inputStateIdle : InputBoardState :=
  { numInputs := 3, currentInput := 0, timerSet := true, cyanide := false,
    precisions := [some 2, none, some 0], published := [0, 0, 0] }

/-- Witness for C9: releasing an idle board clears the timer, releasing a
busy board sets cyanide, and a cyanide rotation does not arm the timer. -/
theorem release_never_reschedules_witness :
    InputBoard.release inputStateIdle = { inputStateIdle with timerSet := false } ∧
    InputBoard.release inputStateMid = { inputStateMid with cyanide := true } ∧
    (InputBoard.rotateStep { inputStateMid with cyanide := true }).timerSet =
      { inputStateMid with cyanide := true }.timerSet ∧
    IOBoard.release ioStateMid = { ioStateMid with cyanide := true } ∧
    (IOBoard.rotateStep { ioStateMid with cyanide := true }).timerSet =
      { ioStateMid with cyanide := true }.timerSet :=
  ⟨release_never_reschedules.1 inputStateIdle rfl,
   release_never_reschedules.2.1 inputStateMid rfl,
   (release_never_reschedules.2.2.2.1 { inputStateMid with cyanide := true } rfl).1,
   (release_never_reschedules.2.2.2.2.2.2.1 ioStateMid rfl),
   (release_never_reschedules.2.2.2.2.2.2.2.2.1 { ioStateMid with cyanide := true } rfl).1⟩

/-- The InputBoard state of the precision scenario: one input configured
with two decimal digits of precision, attribute initialized to 0. -/
def precisionState : InputBoardState :=
  { numInputs := 1, currentInput := 0, timerSet := false, cyanide := false,
    precisions := [some 2], published := [0] }

/-- C7: a successful read rounds the raw value to the configured precision
and publishes the rounded value exactly when it differs from the stored
attribute; concretely, a raw 0.12345 at precision 2 publishes 0.12, and a
following raw 0.1204 rounds to the same 0.12 and publishes nothing. -/
theorem input_precision_rounding :
    (∀ s : InputBoardState, ∀ raw : ℚ,
      ((InputBoard.readStep s raw).2 ≠ none ↔
        s.published.getD s.currentInput 0 ≠
          InputBoard.roundTo ((s.precisions.getD s.currentInput none).getD 3) raw)) ∧
    (∀ s : InputBoardState, ∀ raw : ℚ,
      (InputBoard.readStep s raw).1.published =
        (if s.published.getD s.currentInput 0 ≠
            InputBoard.roundTo ((s.precisions.getD s.currentInput none).getD 3) raw
         then s.published.set s.currentInput
            (InputBoard.roundTo ((s.precisions.getD s.currentInput none).getD 3) raw)
         else s.published)) ∧
    InputBoard.roundTo 2 (12345 / 100000) = 12 / 100 ∧
    (InputBoard.readStep precisionState (12345 / 100000)).2 = some (12 / 100) ∧
    (InputBoard.readStep precisionState (12345 / 100000)).1.published = [12 / 100] ∧
    (InputBoard.readStep
      (InputBoard.readStep precisionState (12345 / 100000)).1 (1204 / 10000)).2 = none := by
  have hr1 : InputBoard.roundTo 2 (12345 / 100000 : ℚ) = 12 / 100 := by
    norm_num [InputBoard.roundTo, round_eq]
  have hr2 : InputBoard.roundTo 2 (1204 / 10000 : ℚ) = 12 / 100 := by
    norm_num [InputBoard.roundTo, round_eq]
  have hne : (0 : ℚ) ≠ 12 / 100 := by norm_num
  have hstep1 : InputBoard.readStep precisionState (12345 / 100000) =
      ({ precisionState with published := [12 / 100] }, some (12 / 100)) := by
    simp [InputBoard.readStep, precisionState, hr1, hne]
  refine ⟨?_, ?_, hr1, ?_, ?_, ?_⟩
  · intro s raw
    simp only [InputBoard.readStep]
    split_ifs with h <;>
      (simp only [List.getD, List.get?_eq_getElem?] at h;
       simp [List.getD, List.get?_eq_getElem?, h])
  · intro s raw
    simp only [InputBoard.readStep]
    split_ifs with h <;>
      (simp only [List.getD, List.get?_eq_getElem?] at h;
       simp [List.getD, List.get?_eq_getElem?, h])
  · rw [hstep1]
  · rw [hstep1]
  · rw [hstep1]
    simp [InputBoard.readStep, precisionState, hr2]

theorem stageOutputs_spec (vals : List Nat) (n : Nat) (arr : List Nat) :
    n + 8 ≤ 8 * arr.length →
    ((List.range n).foldl (fun a i => IC74HC595.set a (i + 8) (vals.getD i 0)) arr).length
        = arr.length ∧
    ((List.range n).foldl (fun a i => IC74HC595.set a (i + 8) (vals.getD i 0)) arr).getD 0 0
        = arr.getD 0 0 ∧
    (∀ i, i < n →
      IC74HC595.get
        ((List.range n).foldl (fun a i => IC74HC595.set a (i + 8) (vals.getD i 0)) arr)
        (i + 8) = if vals.getD i 0 ≠ 0 then 1 else 0) := by
  induction n with
  | zero => exact fun h => ⟨rfl, rfl, fun i hi => absurd hi (by omega)⟩
  | succ n ih =>
    intro h
    obtain ⟨hl, hz, hg⟩ := ih (by omega)
    rw [List.range_succ, List.foldl_append, List.foldl_cons, List.foldl_nil]
    have hpin : (n + 8) / 8 <
        ((List.range n).foldl (fun a i => IC74HC595.set a (i + 8) (vals.getD i 0)) arr).length := by
      rw [hl]; omega
    refine ⟨?_, ?_, ?_⟩
    · rw [IC74HC595.length_set_lt _ _ _ (by rw [hl]; omega)]
      exact hl
    · rw [IC74HC595.getD_set_chip _ _ _ _ hpin (by omega)]
      exact hz
    · intro i hi
      rcases eq_or_ne i n with rfl | hne
      · rw [IC74HC595.get_set_same _ _ _ hpin]
      · rw [IC74HC595.get_set_other _ _ _ _ hpin (by omega)]
        exact hg i (by omega)

theorem set67_byte (arr : List Nat) (p v7 : Nat) (hlen : 1 ≤ arr.length) :
    (IC74HC595.set (IC74HC595.set (listWriteExtend arr 0 p) 6 1) 7 v7).getD 0 0 =
      if v7 ≠ 0 then jsOr (jsOr p 64) 128 else jsAndNot (jsOr p 64) 128 := by
  have h0 : listWriteExtend arr 0 p = arr.set 0 p := by
    rw [listWriteExtend, if_pos (by omega)]
  rw [h0]
  have hg0 : (arr.set 0 p).getD 0 0 = p := getD_set_self _ _ _ _ (by omega)
  simp only [List.getD, List.get?_eq_getElem?] at hg0
  have hpin6 : 6 / 8 < (arr.set 0 p).length := by
    simp only [List.length_set]; omega
  have h6 := IC74HC595.getD_set_chip_self (arr.set 0 p) 6 1 hpin6
  norm_num at h6
  rw [hg0] at h6
  have hpin7 : 7 / 8 < (IC74HC595.set (arr.set 0 p) 6 1).length := by
    rw [IC74HC595.length_set_lt _ _ _ (by simp only [List.length_set]; omega)]
    simp only [List.length_set]; omega
  have h7 := IC74HC595.getD_set_chip_self (IC74HC595.set (arr.set 0 p) 6 1) 7 v7 hpin7
  norm_num at h7
  rw [h6] at h7
  simp only [List.getD, List.get?_eq_getElem?]
  rw [h7]
  rcases eq_or_ne v7 0 with hv | hv <;> simp [hv]

theorem rotateWritten_byte (s : IOBoardState) (ht : 1 ≤ (IOBoard.rotateTarget s).length) :
    (IOBoard.rotateWritten s).getD 0 0 =
      if s.outputQueued then jsOr (jsOr (rotate s.numInputs s.currentInput) 64) 128
      else jsAndNot (jsOr (rotate s.numInputs s.currentInput) 64) 128 := by
  rw [IOBoard.rotateWritten, set67_byte _ _ _ ht]
  rcases hq : s.outputQueued <;> simp [hq]

/-- Every control byte written by the rotation keeps the position in its
low four bits, has bit 6 set, and has bit 7 set exactly on the latch
variant. -/
theorem controlByte_props (p : Nat) (hp : p < 16) :
    (jsOr (jsOr p 64) 128) % 16 = p ∧
    (jsOr (jsOr p 64) 128).testBit 6 = true ∧
    (jsOr (jsOr p 64) 128).testBit 7 = true ∧
    (jsAndNot (jsOr p 64) 128) % 16 = p ∧
    (jsAndNot (jsOr p 64) 128).testBit 6 = true ∧
    (jsAndNot (jsOr p 64) 128).testBit 7 = false := by
  interval_cases p <;> exact (by decide)

/-- C10: the IOBoard chain always keeps chip 0 for control.  Queueing
outputs preserves the chain length of one controller chip plus one chip per
eight outputs, stages the i-th named output at bit i + 8, and never touches
the chip 0 byte; every rotation writes the new input position into bits 0-3
of chip 0, sets bit 6 (output enable), and sets bit 7 (latch) exactly when
a queued output flush rides along. -/
theorem ioboard_first_chip_control (s : IOBoardState)
    (hlen : s.ic595Array.length = num595chips s.numOutputs)
    (hf : s.first595.length = 1)
    (hpos : s.currentInput < s.numInputs)
    (hn : s.numInputs ≤ 16) :
    (IOBoard.queueOutputs s).ic595Array.length = 1 + (s.numOutputs + 7) / 8 ∧
    (∀ i, i < s.numOutputs →
      IC74HC595.get (IOBoard.queueOutputs s).ic595Array (i + 8) =
        if s.outputVals.getD i 0 ≠ 0 then 1 else 0) ∧
    (IOBoard.queueOutputs s).ic595Array.getD 0 0 = s.ic595Array.getD 0 0 ∧
    ((if s.outputQueued then (IOBoard.rotateStep s).ic595Array
      else (IOBoard.rotateStep s).first595).getD 0 0) % 16 =
        (IOBoard.rotateStep s).currentInput ∧
    ((if s.outputQueued then (IOBoard.rotateStep s).ic595Array
      else (IOBoard.rotateStep s).first595).getD 0 0).testBit 6 = true ∧
    ((if s.outputQueued then (IOBoard.rotateStep s).ic595Array
      else (IOBoard.rotateStep s).first595).getD 0 0).testBit 7 = s.outputQueued := by
  have hlen' : s.ic595Array.length = 1 + (s.numOutputs + 7) / 8 := by
    rw [hlen]; rfl
  have harrlen : s.numOutputs + 8 ≤ 8 * s.ic595Array.length := by
    rw [hlen']; omega
  obtain ⟨hl, hz, hg⟩ := stageOutputs_spec s.outputVals s.numOutputs s.ic595Array harrlen
  have hqa : (IOBoard.queueOutputs s).ic595Array =
      (List.range s.numOutputs).foldl
        (fun arr i => IC74HC595.set arr (i + 8) (s.outputVals.getD i 0)) s.ic595Array := rfl
  have ht : 1 ≤ (IOBoard.rotateTarget s).length := by
    rw [IOBoard.rotateTarget]
    split_ifs <;> omega
  have hcur : (IOBoard.rotateStep s).currentInput = rotate s.numInputs s.currentInput := by
    simp only [IOBoard.rotateStep]
    split_ifs <;> rfl
  have harr : (IOBoard.rotateStep s).ic595Array =
      if s.outputQueued then IOBoard.rotateWritten s else s.ic595Array := by
    simp only [IOBoard.rotateStep]
    split_ifs <;> rfl
  have hfst : (IOBoard.rotateStep s).first595 =
      if s.outputQueued then s.first595 else IOBoard.rotateWritten s := by
    simp only [IOBoard.rotateStep]
    split_ifs <;> rfl
  have hp16 : rotate s.numInputs s.currentInput < 16 := by
    rw [rotate]
    split_ifs <;> omega
  have hsel : (if s.outputQueued then (IOBoard.rotateStep s).ic595Array
      else (IOBoard.rotateStep s).first595).getD 0 0 = (IOBoard.rotateWritten s).getD 0 0 := by
    rcases hq : s.outputQueued <;> simp [hq, harr, hfst]
  have hbyte := rotateWritten_byte s ht
  obtain ⟨hc1, hc2, hc3, hc4, hc5, hc6⟩ :=
    controlByte_props (rotate s.numInputs s.currentInput) hp16
  refine ⟨?_, ?_, ?_, ?_, ?_, ?_⟩
  · rw [hqa, hl, hlen']
  · intro i hi
    rw [hqa]
    exact hg i hi
  · rw [hqa]
    exact hz
  · rw [hsel, hbyte, hcur]
    rcases hq : s.outputQueued <;> simp only [hq, if_true, if_false, Bool.false_eq_true]
    · exact hc4
    · exact hc1
  · rw [hsel, hbyte]
    rcases hq : s.outputQueued <;> simp only [hq, if_true, if_false, Bool.false_eq_true]
    · exact hc5
    · exact hc2
  · rw [hsel, hbyte]
    rcases hq : s.outputQueued <;> simp only [hq, if_true, if_false, Bool.false_eq_true]
    · exact hc6
    · exact hc3

/-- Witness for C10 at a concrete IOBoard state with three outputs and a
queued flush. -/
theorem ioboard_first_chip_control_witness :
    (IOBoard.queueOutputs ioStateMid).ic595Array.length =
      1 + (ioStateMid.numOutputs + 7) / 8 ∧
    IC74HC595.get (IOBoard.queueOutputs ioStateMid).ic595Array (0 + 8) =
      (if ioStateMid.outputVals.getD 0 0 ≠ 0 then 1 else 0) ∧
    ((if ioStateMid.outputQueued then (IOBoard.rotateStep ioStateMid).ic595Array
      else (IOBoard.rotateStep ioStateMid).first595).getD 0 0).testBit 7 =
      ioStateMid.outputQueued :=
  ⟨(ioboard_first_chip_control ioStateMid rfl rfl (by decide) (by decide)).1,
   (ioboard_first_chip_control ioStateMid rfl rfl (by decide) (by decide)).2.1 0 (by decide),
   (ioboard_first_chip_control ioStateMid rfl rfl (by decide) (by decide)).2.2.2.2.2⟩

/-- Errors surfaced by the setOutputs controls: an unknown output name, a
value other than 0 or 1, or a JavaScript TypeError from calling a method of
undefined. -/
inductive SetOutputsError where
  | unknownSignal (name : String)
  | invalidValue (value : Int)
  | typeError (msg : String)
deriving Repr, DecidableEq

namespace OutputBoard

/-- The validation loop heading OutputBoard.setOutputs_control: every
request entry is checked in iteration order against the configured output
names, an unknown name failing with the invalid-output-param error and a
value other than exactly 0 or 1 with the invalid-value error. -/
def validateOutputs (validOutputNames : List String) :
    List (String × Int) → Option SetOutputsError
  | [] => none
  | (name, value) :: rest =>
    if ¬ validOutputNames.contains name then some (.unknownSignal name)
    else if value ≠ 0 ∧ value ≠ 1 then some (.invalidValue value)
    else validateOutputs validOutputNames rest

/-- OutputBoard.setOutputs_control: a validation error returns through the
callback before the attribute store is touched, so on failure no output
value changes and nothing is staged or shifted; only on success are the
updates applied (t.set) and sent to the chips (sendOutputs). -/
def setOutputs (validOutputNames : List String) (outputs : List (String × Int)) :
    Except SetOutputsError (List (String × Int)) :=
  match validateOutputs validOutputNames outputs with
  | some e => .error e
  | none => .ok outputs

end OutputBoard

namespace IOBoard

/-- The expression t.validOutputsNames.indexOf(paramName) inside
IOBoard.setOutputs_control.  The initializer assigns the list of output
names to the property validOutputNames, and no assignment to the property
validOutputsNames exists anywhere, so the property read yields undefined
and the indexOf call throws a TypeError. -/
def validOutputsNamesIndexOf (paramName : String) : Except SetOutputsError Int :=
  .error (.typeError ("Cannot read property indexOf of undefined: " ++ paramName))

/-- The validation loop of IOBoard.setOutputs_control, as written in the
source: each iteration first calls indexOf on the misspelled property. -/
def validateLoop : List (String × Int) → Except SetOutputsError Unit
  | [] => .ok ()
  | (name, value) :: rest => do
    let idx ← validOutputsNamesIndexOf name
    if idx < 0 then Except.error (.unknownSignal name)
    else if value ≠ 0 ∧ value ≠ 1 then Except.error (.invalidValue value)
    else validateLoop rest

/-- IOBoard.setOutputs_control: validation first; only when the loop
finishes are the values applied (t.set), queued (queueOutputs) and, when a
timer is pending, flushed by an immediate heartbeat (not modelled beyond
the queueing, since the loop throws on every nonempty request). -/
def setOutputs (s : IOBoardState) (outputs : List (String × Int)) :
    Except SetOutputsError IOBoardState :=
  match validateLoop outputs with
  | .error e => .error e
  | .ok () => .ok (queueOutputs s)

end IOBoard

/-- C8 at the failing input: because setOutputs_control on the IOBoard
reads the never-assigned property validOutputsNames, every nonempty request
map, valid entries included, throws the TypeError instead of being
validated against UnknownSignal and InvalidValue, and the state is
untouched; the twin OutputBoard control validates as the claim says, the
whole map and before any mutation. -/
theorem ioboard_setOutputs_typo (s : IOBoardState) (nv : String × Int)
    (rest : List (String × Int)) :
    IOBoard.setOutputs s (nv :: rest) =
      .error (.typeError ("Cannot read property indexOf of undefined: " ++ nv.1)) ∧
    (∀ valid outputs e, OutputBoard.validateOutputs valid outputs = some e →
      OutputBoard.setOutputs valid outputs = .error e) := by
  constructor
  · rcases nv with ⟨name, value⟩
    simp [IOBoard.setOutputs, IOBoard.validateLoop, IOBoard.validOutputsNamesIndexOf,
      Bind.bind, Except.bind]
  · intro valid outputs e h
    simp [OutputBoard.setOutputs, h]

/-- Witness for C8: a concrete one-entry request with a configured name and
a legal value still throws the TypeError on the IOBoard, and a concrete
unknown-name request on the OutputBoard returns the unknown-signal error. -/
theorem ioboard_setOutputs_typo_witness :
    IOBoard.setOutputs ioStateMid [("o0", 1)] =
      .error (.typeError ("Cannot read property indexOf of undefined: " ++ ("o0", (1 : Int)).1)) ∧
    OutputBoard.setOutputs ["o0"] [("bogus", 1)] =
      .error (.unknownSignal "bogus") :=
  ⟨(ioboard_setOutputs_typo ioStateMid ("o0", 1) []).1,
   (ioboard_setOutputs_typo ioStateMid ("o0", 1) []).2 ["o0"] [("bogus", 1)]
     (.unknownSignal "bogus") (by decide)⟩
